import Mathlib

/-!
Verification of `delete-react-zombies` (src/src/index.ts).

The TypeScript source is shallowly embedded below.  External collaborators
(the `react-docgen` parser, the `isImported` / `isAvailableFile` helpers
imported from `./utils`, the inquirer prompt, the filesystem) are taken as
function parameters or explicit data; where a claim is decided by
repository code missing from `src/`, the missing piece is modelled from the
spec with a marked doc comment.  Definitions come first, theorems follow.
-/

namespace Zombies

/-- The sole data entity (`Component` in src/src/index.ts): a discovered
React component with its display name, file path and full file text. -/
structure Component where
  name : String
  path : String
  content : String
deriving Repr, DecidableEq

/-- JavaScript's `String.prototype.includes`: `jsIncludes s sub` holds when
`sub` occurs as a contiguous substring of `s`. -/
def jsIncludes (s sub : String) : Bool := decide (sub.toList <:+: s.toList)

/-- Embedding of `verifyImport(component, listOfComponents)`
(src/src/index.ts lines 72-80): loop through the list of files; if
`isImported(component.name, file.content)` holds for some file, return
`undefined` (here `none`); otherwise return the component.  The
import-matching capability `isImported` (from the absent `./utils`) is a
parameter `imp`. -/
def verifyImport (imp : String → String → Bool) (component : Component) :
    List Component → Option Component
  | [] => some component
  | file :: rest =>
    if imp component.name file.content then none
    else verifyImport imp component rest

/-- Embedding of `getUnusedComponents(components)` (src/src/index.ts lines
85-95): a `reduce` over the components; for each `curr` the whole list
(including `curr` itself) is scanned by `verifyImport`, and `curr` is
appended to the accumulator exactly when `verifyImport` returned it. -/
def getUnusedComponents (imp : String → String → Bool)
    (components : List Component) : List Component :=
  components.foldl
    (fun acc curr =>
      match verifyImport imp curr components with
      | none => acc
      | some componentUnUsed => acc ++ [componentUnUsed])
    []

/-- JavaScript truthiness of the optional `args.path` string: `undefined`
and the empty string are falsy. -/
def pathTruthy : Option String → Bool
  | none => false
  | some s => !(s == "")

/-- Embedding of the `useFullPath` computation at the head of
`getComponentsFromDir` (src/src/index.ts line 28):
`!args.path && args.absoluteImports && !isSubfolder ? path + "/" + baseUrl : path`. -/
def useFullPath (argsPath : Option String) (absoluteImports : Bool)
    (baseUrl : String) (path : String) (isSubfolder : Bool) : String :=
  if !(pathTruthy argsPath) && absoluteImports && !isSubfolder then
    path ++ "/" ++ baseUrl
  else path

/-- Embedding of `const path = args.path || process.cwd()` from the main
IIFE (src/src/index.ts line 131). -/
def topLevelScanPath (argsPath : Option String) (cwd : String) : String :=
  match argsPath with
  | none => cwd
  | some s => if s == "" then cwd else s

/-- The effective scan root of the top-level call: the main IIFE's argument
resolution composed with `useFullPath` at `isSubfolder = false`. -/
def effectiveScanRoot (argsPath : Option String) (absoluteImports : Bool)
    (baseUrl cwd : String) : String :=
  useFullPath argsPath absoluteImports baseUrl
    (topLevelScanPath argsPath cwd) false

/-- Embedding of `getComponentName(fileContent)` (src/src/index.ts lines
12-20).  The external `react-docgen` parse is a parameter
`parse : String → Except Unit (Option String)`: `Except.error` is a thrown
parse failure (caught, yielding `''`), `Except.ok none` a parse result with
no `displayName` (`parsed.displayName || ''`), `Except.ok (some s)` a
result whose `displayName` is `s`. -/
def getComponentName (parse : String → Except Unit (Option String))
    (fileContent : String) : String :=
  match parse fileContent with
  | .error _ => ""
  | .ok none => ""
  | .ok (some displayName) => displayName

/-- One directory entry of the modelled filesystem.  Filesystem operations
can fail (`fs` calls throw): `statFail` is an entry whose `statSync`
throws, `fileReadFail` a file whose `readFileSync` throws, `dirListFail` a
directory whose `readdirSync` throws. -/
inductive FEntry where
  | statFail (name : String)
  | fileReadFail (name : String)
  | file (name content : String)
  | dirListFail (name : String)
  | dir (name : String) (entries : List FEntry)

/-- Embedding of the body of `getComponentsFromDir` (src/src/index.ts lines
33-64): the `reduce` over the listed entries of the directory at `dirPath`.
For each entry, `statSync` runs first (a thrown error aborts); a directory
is skipped entirely when `args.ignoreNodeModules` is set and its name
contains `"node_modules"`, otherwise it is recursed into (a thrown
`readdirSync` aborts); an eligible file (the external `isAvailableFile`
capability is the parameter `avail`, applied to the file name) is read (a
thrown read aborts) and yields one `Component` when `getComponentName`
returns a non-empty name.  Nothing in the source catches these filesystem
errors, so they propagate: the result is `Except.error ()` as soon as one
occurs, with no partial list. -/
def walkEntries (ignoreNodeModules : Bool)
    (parse : String → Except Unit (Option String)) (avail : String → Bool) :
    String → List FEntry → Except Unit (List Component)
  | _, [] => .ok []
  | _, .statFail _ :: _ => .error ()
  | dirPath, .dir name entries :: rest =>
    if ignoreNodeModules && jsIncludes name "node_modules" then
      walkEntries ignoreNodeModules parse avail dirPath rest
    else do
      let sub ← walkEntries ignoreNodeModules parse avail
        (dirPath ++ "/" ++ name) entries
      let rs ← walkEntries ignoreNodeModules parse avail dirPath rest
      pure (sub ++ rs)
  | dirPath, .dirListFail name :: rest =>
    if ignoreNodeModules && jsIncludes name "node_modules" then
      walkEntries ignoreNodeModules parse avail dirPath rest
    else .error ()
  | dirPath, .fileReadFail name :: rest =>
    if avail name then .error ()
    else walkEntries ignoreNodeModules parse avail dirPath rest
  | dirPath, .file name content :: rest =>
    if avail name then
      let componentName := getComponentName parse content
      if componentName == "" then
        walkEntries ignoreNodeModules parse avail dirPath rest
      else do
        let rs ← walkEntries ignoreNodeModules parse avail dirPath rest
        pure (⟨componentName, dirPath ++ "/" ++ name, content⟩ :: rs)
    else walkEntries ignoreNodeModules parse avail dirPath rest

/-- Removes from a directory forest every directory entry whose name
contains the vendor marker `"node_modules"`, at every depth. -/
def pruneVendor : List FEntry → List FEntry
  | [] => []
  | .dir name entries :: rest =>
    if jsIncludes name "node_modules" then pruneVendor rest
    else .dir name (pruneVendor entries) :: pruneVendor rest
  | .dirListFail name :: rest =>
    if jsIncludes name "node_modules" then pruneVendor rest
    else .dirListFail name :: pruneVendor rest
  | e :: rest => e :: pruneVendor rest

/-- An observable external action of the Deletion Workflow: asking the
yes/no confirmation for a path, or invoking the delete capability on a
path. -/
inductive DelEvent where
  | prompt (path : String)
  | delete (path : String)
deriving Repr, DecidableEq

/-- Modelled from the spec: `deleteComponents` is imported from the absent
`./utils`; per the spec's Deletion Workflow, "Forced mode: deletes every
unused component's file without confirmation".  It invokes the external
delete capability once per component, in list order, issuing no prompts. -/
def deleteComponents (components : List Component) : List DelEvent :=
  components.map (fun c => DelEvent.delete c.path)

/-- Embedding of `confirmDelete(components)` (src/src/index.ts lines
100-117): iterate the unused list in order; for each component ask the
confirmation prompt naming its path, and invoke the delete capability
(`deleteComponent`) only on an affirmative answer.  The prompt capability
is the parameter `ans`; the verbose `console.log` has no external effect
modelled here. -/
def confirmDelete (ans : Component → Bool) : List Component → List DelEvent
  | [] => []
  | component :: rest =>
    DelEvent.prompt component.path ::
      (if ans component then
        DelEvent.delete component.path :: confirmDelete ans rest
      else confirmDelete ans rest)

/-- Embedding of the deletion phase of the main IIFE (src/src/index.ts
lines 141-145): `if (args.force) return deleteComponents(zombieComponents);
await confirmDelete(zombieComponents);`. -/
def deletionWorkflow (force : Bool) (ans : Component → Bool)
    (zombieComponents : List Component) : List DelEvent :=
  if force then deleteComponents zombieComponents
  else confirmDelete ans zombieComponents

/-- Sequencing of two fallible walk results, as the `reduce` body does:
both must succeed, and their component lists are concatenated in order. -/
def seqAppend (x y : Except Unit (List Component)) :
    Except Unit (List Component) := do
  let cs ← x
  let rs ← y
  pure (cs ++ rs)

/-- A concrete instance of the import-matching capability, used for
concrete evaluations: the component name occurs as a substring of the file
content (the spec's "textual match"). -/
def impEx : String → String → Bool := fun name content => jsIncludes content name

/-- A component whose own content contains its own name. -/
def selfRef : Component :=
  ⟨"Foo", "src/Foo.tsx", "export const Foo = () => <Foo />"⟩

/-- Declares `Foo`; its content references no other component name. -/
def compFoo : Component := ⟨"Foo", "src/Foo.tsx", "export const Foo = 1"⟩

/-- Declares `Bar`; its content contains the literal substring `Foo`. -/
def compBar : Component := ⟨"Bar", "src/Bar.tsx", "render(Foo)"⟩

/-- A concrete instance of the name-extraction capability, for concrete
evaluations. -/
def parseEx : String → Except Unit (Option String) := fun s =>
  if s = "export const Foo = 1" then .ok (some "Foo")
  else if s = "const anon = 1" then .ok none
  else if s = "const blank = 1" then .ok (some "")
  else .error ()

/-- A concrete instance of the file-eligibility capability, for concrete
evaluations: the file name contains `.tsx`. -/
def availEx (name : String) : Bool := jsIncludes name ".tsx"

/-- `verifyImport` either returns nothing or exactly the component it was
given. -/
theorem verifyImport_none_or_self (imp : String → String → Bool)
    (c : Component) (l : List Component) :
    verifyImport imp c l = none ∨ verifyImport imp c l = some c := by
  induction l with
  | nil => exact Or.inr rfl
  | cons file rest ih =>
    by_cases h : imp c.name file.content
    · exact Or.inl (by simp [verifyImport, h])
    · simpa [verifyImport, h] using ih

/-- `verifyImport` returns its component exactly when no file in the list
matches the component's name. -/
theorem verifyImport_eq_some_iff (imp : String → String → Bool)
    (c : Component) (l : List Component) :
    verifyImport imp c l = some c ↔ ∀ f ∈ l, imp c.name f.content = false := by
  induction l with
  | nil => simp [verifyImport]
  | cons file rest ih =>
    by_cases h : imp c.name file.content
    · simp [verifyImport, h]
    · simp only [verifyImport, if_neg h, ih, List.mem_cons]
      constructor
      · rintro hall f (rfl | hf)
        · simpa using h
        · exact hall f hf
      · intro hall f hf
        exact hall f (Or.inr hf)

/-- The fold in `getUnusedComponents`, run from an arbitrary accumulator,
appends exactly the elements kept by `verifyImport`. -/
theorem getUnused_foldl_eq (imp : String → String → Bool)
    (components : List Component) (l acc : List Component) :
    l.foldl
      (fun acc curr =>
        match verifyImport imp curr components with
        | none => acc
        | some componentUnUsed => acc ++ [componentUnUsed])
      acc
    = acc ++ l.filter (fun c => (verifyImport imp c components).isSome) := by
  induction l generalizing acc with
  | nil => simp
  | cons c rest ih =>
    rcases verifyImport_none_or_self imp c components with h | h
    · simp [List.foldl_cons, h, ih, List.filter_cons]
    · simp [List.foldl_cons, h, ih, List.filter_cons, List.append_assoc]

/-- `getUnusedComponents` is the filter of the input by "kept by
`verifyImport` against the whole list". -/
theorem getUnusedComponents_eq_filter (imp : String → String → Bool)
    (components : List Component) :
    getUnusedComponents imp components
    = components.filter (fun c => (verifyImport imp c components).isSome) := by
  simpa [getUnusedComponents] using
    getUnused_foldl_eq imp components components []

/-- The unused list is an order-preserving sublist of the input. -/
theorem getUnusedComponents_sublist (imp : String → String → Bool)
    (components : List Component) :
    (getUnusedComponents imp components).Sublist components := by
  rw [getUnusedComponents_eq_filter]
  exact List.filter_sublist components

/-- Membership in the unused list, for a component of the input, is
equivalent to: no component of the whole input (the component itself
included) matches. -/
theorem mem_getUnusedComponents_iff (imp : String → String → Bool)
    (components : List Component) (c : Component) (hc : c ∈ components) :
    c ∈ getUnusedComponents imp components
      ↔ ∀ f ∈ components, imp c.name f.content = false := by
  rw [getUnusedComponents_eq_filter, List.mem_filter]
  constructor
  · rintro ⟨-, hsome⟩
    rcases verifyImport_none_or_self imp c components with h | h
    · rw [h] at hsome; cases hsome
    · exact (verifyImport_eq_some_iff imp c components).1 h
  · intro hall
    refine ⟨hc, ?_⟩
    rw [(verifyImport_eq_some_iff imp c components).2 hall]
    rfl

/-- C1 counterexample: the claim "unused iff no *other* component's content
contains a matching reference" fails on the code.  For a single component
whose own content matches its own name, no *other* component references it
(vacuously), yet `getUnusedComponents` classifies it used, because
`verifyImport` scans the full list including the component itself. -/
theorem C1_counterexample :
    ¬ (selfRef ∈ getUnusedComponents impEx [selfRef]
        ↔ ¬ ∃ f ∈ [selfRef], f ≠ selfRef ∧ impEx selfRef.name f.content = true) := by
  decide

/-- C1 (amended): for every component list given to the Usage Resolver, a
component of the list is classified unused iff no component's content in
the list — the component's own content included — contains a matching
reference (per the import-matching capability `imp`). -/
theorem C1_unused_iff_unreferenced (imp : String → String → Bool)
    (components : List Component) (c : Component) (hc : c ∈ components) :
    c ∈ getUnusedComponents imp components
      ↔ ∀ f ∈ components, imp c.name f.content = false :=
  mem_getUnusedComponents_iff imp components c hc

/-- C1 witness: in the concrete set `[Foo, Bar]` where `Bar`'s content
references `Foo` and nothing references `Bar`, the amended criterion puts
`Bar` in the unused list. -/
theorem C1_witness :
    compBar ∈ getUnusedComponents impEx [compFoo, compBar] :=
  (C1_unused_iff_unreferenced impEx [compFoo, compBar] compBar (by decide)).2
    (by decide)

/-- C2: if the import-matching capability reports a discovered component's
name as referenced in the component's own content, the Usage Resolver
classifies it used (it never appears in the unused list): self-content is
not excluded from the scan. -/
theorem C2_self_reference_used (imp : String → String → Bool)
    (components : List Component) (c : Component) (hc : c ∈ components)
    (hself : imp c.name c.content = true) :
    c ∉ getUnusedComponents imp components := by
  rw [mem_getUnusedComponents_iff imp components c hc]
  intro hall
  have h := hall c hc
  rw [hself] at h
  cases h

/-- C2 witness: the concrete self-referencing component is classified
used. -/
theorem C2_witness : selfRef ∉ getUnusedComponents impEx [selfRef] :=
  C2_self_reference_used impEx [selfRef] selfRef (by decide) (by decide)

/-- C6: the Usage Resolver is a deterministic pure function of its input
component list — two runs on the same immutable set yield the same
used/unused partition — and the unused result is an order-preserving
sublist of the input. -/
theorem C6_deterministic_order_preserving :
    (∀ (imp : String → String → Bool) (cs : List Component),
        getUnusedComponents imp cs = getUnusedComponents imp cs)
    ∧ (∀ (imp : String → String → Bool) (cs : List Component),
        (getUnusedComponents imp cs).Sublist cs) :=
  ⟨fun _ _ => rfl, fun imp cs => getUnusedComponents_sublist imp cs⟩

/-- C10: `verifyImport` returns either nothing or exactly the component it
was given, unmodified; consequently the Usage Resolver's output is an
order-preserving sublist of its input — it never fabricates, duplicates or
mutates components. -/
theorem C10_verifyImport_identity_sublist :
    (∀ (imp : String → String → Bool) (c : Component) (l : List Component),
        verifyImport imp c l = none ∨ verifyImport imp c l = some c)
    ∧ (∀ (imp : String → String → Bool) (cs : List Component),
        (getUnusedComponents imp cs).Sublist cs) :=
  ⟨verifyImport_none_or_self, fun imp cs => getUnusedComponents_sublist imp cs⟩

/-- C3: the effective scan root is the explicit path verbatim when one is
configured; otherwise `cwd ++ "/" ++ baseUrl` when the absolute-imports
option is set; otherwise the current working directory alone.  Every
nested (subfolder) call scans the plain subdirectory path, never
re-applying the baseUrl suffix. -/
theorem C3_scan_root_resolution :
    (∀ (p : String), p ≠ "" → ∀ (abs : Bool) (baseUrl cwd : String),
        effectiveScanRoot (some p) abs baseUrl cwd = p)
    ∧ (∀ (baseUrl cwd : String),
        effectiveScanRoot none true baseUrl cwd = cwd ++ "/" ++ baseUrl)
    ∧ (∀ (baseUrl cwd : String),
        effectiveScanRoot none false baseUrl cwd = cwd)
    ∧ (∀ (argsPath : Option String) (abs : Bool) (baseUrl path : String),
        useFullPath argsPath abs baseUrl path true = path) := by
  refine ⟨?_, ?_, ?_, ?_⟩
  · intro p hp abs baseUrl cwd
    have hne : (p == "") = false := by
      simpa [beq_iff_eq] using hp
    simp [effectiveScanRoot, useFullPath, topLevelScanPath, pathTruthy, hne]
  · intro baseUrl cwd
    simp [effectiveScanRoot, useFullPath, topLevelScanPath, pathTruthy]
  · intro baseUrl cwd
    simp [effectiveScanRoot, useFullPath, topLevelScanPath, pathTruthy]
  · intro argsPath abs baseUrl path
    simp [useFullPath]

/-- C3 witness: with an explicit path `"app"` configured (and the
absolute-imports option also set), the scan root is `"app"` verbatim. -/
theorem C3_witness :
    effectiveScanRoot (some "app") true "src" "/cwd" = "app" :=
  C3_scan_root_resolution.1 "app" (by decide) true "src" "/cwd"

/-- Binding an `Except.ok` value reduces to the continuation. -/
theorem except_ok_bind {α β : Type} (a : α) (f : α → Except Unit β) :
    (Except.ok a >>= f) = f a := rfl

/-- Binding an `Except.error` value propagates the error. -/
theorem except_error_bind {α β : Type} (f : α → Except Unit β) :
    ((Except.error () : Except Unit α) >>= f) = Except.error () := rfl

/-- A failed left walk result makes the sequenced result fail. -/
theorem seqAppend_error_left (y : Except Unit (List Component)) :
    seqAppend (.error ()) y = .error () := rfl

/-- A failed right walk result makes the sequenced result fail. -/
theorem seqAppend_ok_error (cs : List Component) :
    seqAppend (.ok cs) (.error ()) = .error () := rfl

/-- Two successful walk results are concatenated. -/
theorem seqAppend_ok_ok (cs rs : List Component) :
    seqAppend (.ok cs) (.ok rs) = .ok (cs ++ rs) := rfl

/-- The walk of a directory listing decomposes entry by entry: the head's
result is sequenced before the rest's. -/
theorem walkEntries_cons (ignoreNM : Bool)
    (parse : String → Except Unit (Option String)) (avail : String → Bool)
    (dirPath : String) (e : FEntry) (rest : List FEntry) :
    walkEntries ignoreNM parse avail dirPath (e :: rest)
      = seqAppend (walkEntries ignoreNM parse avail dirPath [e])
          (walkEntries ignoreNM parse avail dirPath rest) := by
  cases e with
  | statFail name => simp [walkEntries, seqAppend_error_left]
  | fileReadFail name =>
    by_cases h : avail name
    · simp [walkEntries, h, seqAppend_error_left]
    · cases hr : walkEntries ignoreNM parse avail dirPath rest <;>
        simp [walkEntries, h, hr, seqAppend, except_ok_bind, except_error_bind]
  | file name content =>
    by_cases h : avail name
    · by_cases hn : getComponentName parse content == ""
      · cases hr : walkEntries ignoreNM parse avail dirPath rest <;>
          simp [walkEntries, h, hn, hr, seqAppend, except_ok_bind, except_error_bind]
      · cases hr : walkEntries ignoreNM parse avail dirPath rest <;>
          simp [walkEntries, h, hn, hr, seqAppend, except_ok_bind, except_error_bind]
    · cases hr : walkEntries ignoreNM parse avail dirPath rest <;>
        simp [walkEntries, h, hr, seqAppend, except_ok_bind, except_error_bind]
  | dirListFail name =>
    by_cases h : ignoreNM && jsIncludes name "node_modules"
    · cases hr : walkEntries ignoreNM parse avail dirPath rest <;>
        simp [walkEntries, h, hr, seqAppend, except_ok_bind, except_error_bind]
    · simp [walkEntries, h, seqAppend_error_left]
  | dir name entries =>
    by_cases h : ignoreNM && jsIncludes name "node_modules"
    · cases hr : walkEntries ignoreNM parse avail dirPath rest <;>
        simp [walkEntries, h, hr, seqAppend, except_ok_bind, except_error_bind]
    · cases hs : walkEntries ignoreNM parse avail (dirPath ++ "/" ++ name) entries <;>
        cases hr : walkEntries ignoreNM parse avail dirPath rest <;>
          simp [walkEntries, h, hs, hr, seqAppend, except_ok_bind, except_error_bind]

/-- If processing any single entry of a listing fails, the walk of the
whole listing fails: no partial component list survives. -/
theorem walk_error_of_mem (ignoreNM : Bool)
    (parse : String → Except Unit (Option String)) (avail : String → Bool)
    (dirPath : String) (es : List FEntry) (e : FEntry) (he : e ∈ es)
    (herr : walkEntries ignoreNM parse avail dirPath [e] = .error ()) :
    walkEntries ignoreNM parse avail dirPath es = .error () := by
  induction es with
  | nil => cases he
  | cons x rest ih =>
    rw [walkEntries_cons]
    rcases List.mem_cons.1 he with rfl | hmem
    · rw [herr, seqAppend_error_left]
    · cases hx : walkEntries ignoreNM parse avail dirPath [x] with
      | error err => cases err; rw [seqAppend_error_left]
      | ok cs => rw [ih hmem, seqAppend_ok_error]

/-- C4: with the ignore-vendor option enabled, the tree walk's outcome is
unchanged when every directory whose name contains `"node_modules"` is
removed from the tree, at every nesting depth: nothing under a vendor
directory is ever read (even failing filesystem nodes there cannot abort
the walk) or yielded as a `Component`. -/
theorem C4_vendor_exclusion (parse : String → Except Unit (Option String))
    (avail : String → Bool) (dirPath : String) (es : List FEntry) :
    walkEntries true parse avail dirPath es
      = walkEntries true parse avail dirPath (pruneVendor es) := by
  induction dirPath, es using walkEntries.induct true parse avail <;>
    simp_all [pruneVendor, walkEntries]

/-- C5: for an eligible file (`avail name = true`) encountered by the walk:
when the name-extraction capability accepts the text and reports a
non-empty display name `n`, exactly one `Component` is produced, with
`content` the original file text verbatim, placed before the results of the
remaining entries; when extraction raises a parse failure, or reports a
missing or empty display name, no `Component` is produced and traversal
continues with the remaining entries. -/
theorem C5_extraction_behavior (ignoreNM : Bool)
    (parse : String → Except Unit (Option String)) (avail : String → Bool)
    (dirPath name content : String) (rest : List FEntry)
    (helig : avail name = true) :
    (∀ n : String, parse content = .ok (some n) → ¬ n = "" →
        walkEntries ignoreNM parse avail dirPath (.file name content :: rest)
          = seqAppend (.ok [⟨n, dirPath ++ "/" ++ name, content⟩])
              (walkEntries ignoreNM parse avail dirPath rest))
    ∧ (parse content = .error () →
        walkEntries ignoreNM parse avail dirPath (.file name content :: rest)
          = walkEntries ignoreNM parse avail dirPath rest)
    ∧ (parse content = .ok none →
        walkEntries ignoreNM parse avail dirPath (.file name content :: rest)
          = walkEntries ignoreNM parse avail dirPath rest)
    ∧ (parse content = .ok (some "") →
        walkEntries ignoreNM parse avail dirPath (.file name content :: rest)
          = walkEntries ignoreNM parse avail dirPath rest) := by
  refine ⟨?_, ?_, ?_, ?_⟩
  · intro n hparse hn
    have hne : (n == "") = false := by simpa [beq_iff_eq] using hn
    cases hr : walkEntries ignoreNM parse avail dirPath rest <;>
      simp [walkEntries, helig, getComponentName, hparse, hne, hr, seqAppend,
        except_ok_bind, except_error_bind]
  · intro hparse
    simp [walkEntries, helig, getComponentName, hparse]
  · intro hparse
    simp [walkEntries, helig, getComponentName, hparse]
  · intro hparse
    simp [walkEntries, helig, getComponentName, hparse]

/-- C5 witness: an eligible file whose text parses to display name `"Foo"`
yields exactly one component with verbatim content; an eligible file whose
text throws in the parser yields none and the walk continues. -/
theorem C5_witness :
    walkEntries false parseEx availEx "root"
        [FEntry.file "A.tsx" "export const Foo = 1"]
      = seqAppend (.ok [⟨"Foo", "root" ++ "/" ++ "A.tsx", "export const Foo = 1"⟩])
          (walkEntries false parseEx availEx "root" [])
    ∧ walkEntries false parseEx availEx "root" [FEntry.file "B.tsx" "garbage (("]
      = walkEntries false parseEx availEx "root" [] :=
  ⟨(C5_extraction_behavior false parseEx availEx "root" "A.tsx"
      "export const Foo = 1" [] (by decide)).1 "Foo" rfl (by decide),
   (C5_extraction_behavior false parseEx availEx "root" "B.tsx"
      "garbage ((" [] (by decide)).2.1 rfl⟩

/-- C9: a filesystem failure on any encountered entry is not recovered: a
stat failure always aborts; a directory-listing failure aborts unless the
directory is vendor-skipped; a read failure of an eligible file aborts; a
failure inside a recursed-into subdirectory aborts the enclosing walk; and
a failing entry anywhere in a listing makes the whole walk fail with no
partial component list. -/
theorem C9_fs_failure_fatal (ignoreNM : Bool)
    (parse : String → Except Unit (Option String)) (avail : String → Bool)
    (dirPath : String) :
    (∀ (name : String) (rest : List FEntry),
        walkEntries ignoreNM parse avail dirPath (.statFail name :: rest)
          = .error ())
    ∧ (∀ (name : String) (rest : List FEntry),
        (ignoreNM && jsIncludes name "node_modules") = false →
        walkEntries ignoreNM parse avail dirPath (.dirListFail name :: rest)
          = .error ())
    ∧ (∀ (name : String) (rest : List FEntry), avail name = true →
        walkEntries ignoreNM parse avail dirPath (.fileReadFail name :: rest)
          = .error ())
    ∧ (∀ (name : String) (entries rest : List FEntry),
        (ignoreNM && jsIncludes name "node_modules") = false →
        walkEntries ignoreNM parse avail (dirPath ++ "/" ++ name) entries
          = .error () →
        walkEntries ignoreNM parse avail dirPath (.dir name entries :: rest)
          = .error ())
    ∧ (∀ (es : List FEntry) (e : FEntry), e ∈ es →
        walkEntries ignoreNM parse avail dirPath [e] = .error () →
        walkEntries ignoreNM parse avail dirPath es = .error ()) := by
  refine ⟨?_, ?_, ?_, ?_, ?_⟩
  · intro name rest
    simp [walkEntries]
  · intro name rest h
    simp [walkEntries, h]
  · intro name rest h
    simp [walkEntries, h]
  · intro name entries rest h hsub
    simp [walkEntries, h, hsub, except_error_bind]
  · intro es e he herr
    exact walk_error_of_mem ignoreNM parse avail dirPath es e he herr

/-- C9 witness: a stat failure after a successfully extracted file aborts
the whole walk — no partial one-component list is returned. -/
theorem C9_witness :
    walkEntries false parseEx availEx "root"
      [FEntry.file "A.tsx" "export const Foo = 1", FEntry.statFail "x"]
      = .error () :=
  (C9_fs_failure_fatal false parseEx availEx "root").2.2.2.2
    [FEntry.file "A.tsx" "export const Foo = 1", FEntry.statFail "x"]
    (FEntry.statFail "x") (by simp)
    ((C9_fs_failure_fatal false parseEx availEx "root").1 "x" [])

/-- C7: with the force flag set, the Deletion Workflow invokes the delete
capability once per unused component, in order, and issues zero
confirmation prompts. -/
theorem C7_forced_deletes_all_unprompted (ans : Component → Bool)
    (zombieComponents : List Component) :
    deletionWorkflow true ans zombieComponents
      = zombieComponents.map (fun c => DelEvent.delete c.path)
    ∧ (∀ c ∈ zombieComponents,
        DelEvent.delete c.path ∈ deletionWorkflow true ans zombieComponents)
    ∧ (∀ p : String,
        DelEvent.prompt p ∉ deletionWorkflow true ans zombieComponents) := by
  have hw : deletionWorkflow true ans zombieComponents
      = zombieComponents.map (fun c => DelEvent.delete c.path) := rfl
  refine ⟨rfl, ?_, ?_⟩
  · intro c hc
    rw [hw, List.mem_map]
    exact ⟨c, hc, rfl⟩
  · intro p hp
    rw [hw, List.mem_map] at hp
    obtain ⟨c, -, hcp⟩ := hp
    cases hcp

/-- C7 witness: with an unused set of two components, both underlying files
are deleted and no prompt for either path is issued. -/
theorem C7_witness :
    DelEvent.delete "src/Foo.tsx"
        ∈ deletionWorkflow true (fun _ => false) [compFoo, compBar]
    ∧ DelEvent.delete "src/Bar.tsx"
        ∈ deletionWorkflow true (fun _ => false) [compFoo, compBar]
    ∧ DelEvent.prompt "src/Foo.tsx"
        ∉ deletionWorkflow true (fun _ => false) [compFoo, compBar] :=
  ⟨(C7_forced_deletes_all_unprompted (fun _ => false) [compFoo, compBar]).2.1
      compFoo (by decide),
   (C7_forced_deletes_all_unprompted (fun _ => false) [compFoo, compBar]).2.1
      compBar (by decide),
   (C7_forced_deletes_all_unprompted (fun _ => false) [compFoo, compBar]).2.2
      "src/Foo.tsx"⟩

/-- C8: in interactive mode, a declined confirmation for the current item
contributes only that item's prompt — the delete capability is not invoked
for it and the workflow moves on to the rest — and, globally, every delete
the workflow ever issues was answered affirmatively. -/
theorem C8_declined_item_not_deleted (ans : Component → Bool) (c : Component)
    (rest : List Component) (hdecl : ans c = false) :
    confirmDelete ans (c :: rest)
      = DelEvent.prompt c.path :: confirmDelete ans rest
    ∧ (∀ (cs : List Component) (p : String),
        DelEvent.delete p ∈ confirmDelete ans cs →
        ∃ c' ∈ cs, c'.path = p ∧ ans c' = true) := by
  constructor
  · simp [confirmDelete, hdecl]
  · intro cs
    induction cs with
    | nil =>
      intro p hp
      simp [confirmDelete] at hp
    | cons x xs ih =>
      intro p hp
      by_cases hx : ans x
      · simp only [confirmDelete, if_pos hx, List.mem_cons] at hp
        rcases hp with hp | hp | hp
        · cases hp
        · cases hp
          exact ⟨x, List.mem_cons_self x xs, rfl, hx⟩
        · obtain ⟨c', hc', hcp, hca⟩ := ih p hp
          exact ⟨c', List.mem_cons_of_mem x hc', hcp, hca⟩
      · simp only [confirmDelete, if_neg hx, List.mem_cons] at hp
        rcases hp with hp | hp
        · cases hp
        · obtain ⟨c', hc', hcp, hca⟩ := ih p hp
          exact ⟨c', List.mem_cons_of_mem x hc', hcp, hca⟩

/-- C8 witness: with the answer oracle declining `Foo` and confirming
`Bar`, the declined head contributes only its prompt, and any delete issued
over `[Foo, Bar]` belongs to a confirmed item. -/
theorem C8_witness :
    confirmDelete (fun c => c.name == "Bar") (compFoo :: [compBar])
      = DelEvent.prompt compFoo.path
          :: confirmDelete (fun c => c.name == "Bar") [compBar]
    ∧ ∃ c' ∈ [compFoo, compBar], c'.path = "src/Bar.tsx"
        ∧ (fun c => c.name == "Bar") c' = true :=
  ⟨(C8_declined_item_not_deleted (fun c => c.name == "Bar") compFoo [compBar]
      (by decide)).1,
   (C8_declined_item_not_deleted (fun c => c.name == "Bar") compFoo [compBar]
      (by decide)).2 [compFoo, compBar] "src/Bar.tsx" (by decide)⟩

end Zombies
